import Mathlib

/-!
Verification of the StudyTimeTracker repository (src/db.py, src/main.py):
a shallow embedding of the persistence layer and of the session form's
pure logic, with theorems checking the specification's claims.

The sqlite table study_logs is modelled as a list of StudyEntry records in
rowid (insertion) order.  Each db helper opens its own connection in a
Python with-block that commits on exit, so each helper is one committed
transaction: a helper is embedded as one state transition on the table.
Python ints are Int, Python strings are String, and fallible Python code
(ValueError, IndexError) returns Option.
-/

namespace StudyTracker

/-- db.py, StudyEntry dataclass: one study session row. -/
structure StudyEntry where
  date_iso : String
  start_time : String
  end_time : String
  category : String
  duration_minutes : Int
deriving DecidableEq

/-! ## Time parsing: datetime.strptime(s, "%H:%M")

CPython's strptime compiles "%H:%M" to the anchored regex
(2[0-3]|[0-1][0-9]|[0-9]) ":" ([0-5][0-9]|[0-9]) and raises ValueError on
any string it does not match in full: so a field is one or two decimal
digits whose value is within range, the two fields are joined by a single
colon, and nothing else is accepted.
-/

/-- Value of a nonempty all-digit character run (else none). -/
def digitsVal? (l : List Char) : Option Nat :=
  if l ≠ [] ∧ l.all Char.isDigit then
    some (l.foldl (fun acc c => acc * 10 + (c.toNat - 48)) 0)
  else none

/-- One strptime field: one or two digits, value at most maxVal. -/
def parseField (maxVal : Nat) (l : List Char) : Option Nat :=
  if l.length = 1 ∨ l.length = 2 then
    match digitsVal? l with
    | some v => if v ≤ maxVal then some v else none
    | none => none
  else none

/-- Split a character list at every colon (like Python s.split with a colon,
keeping empty segments), so a full match of field ":" field is exactly a
two-segment split with both segments valid fields. -/
def splitOnColon : List Char → List (List Char)
  | [] => [[]]
  | c :: cs =>
    if c = ':' then [] :: splitOnColon cs
    else
      match splitOnColon cs with
      | [] => [[c]]
      | p :: ps => (c :: p) :: ps

/-- strptime(s, "%H:%M") as minutes since midnight; none models ValueError. -/
def parseTimeMinutes (s : String) : Option Nat :=
  match splitOnColon s.data with
  | [h, m] =>
    match parseField 23 h, parseField 59 m with
    | some hv, some mv => some (hv * 60 + mv)
    | _, _ => none
  | _ => none

/-- main.py minutes_between: parse both times, add a day to the end time when
it is strictly earlier than the start, return the difference in whole
minutes.  none models the ValueError that strptime raises on bad input. -/
def minutes_between (start_str end_str : String) : Option Int :=
  match parseTimeMinutes start_str, parseTimeMinutes end_str with
  | some s, some e => some ((if e < s then (e : Int) + 1440 else (e : Int)) - (s : Int))
  | _, _ => none

/-- Python str.strip() on both ends (the whitespace the inputs can hold). -/
def pyStrip (s : String) : String :=
  String.mk (((s.data.dropWhile Char.isWhitespace).reverse.dropWhile Char.isWhitespace).reverse)

/-! ## Decimal rendering (Python f-string number formatting) -/

/-- Decimal digits of n, most significant first, empty for 0; the fuel
argument only bounds the recursion depth and any fuel at least n is enough. -/
def natReprAux : Nat → Nat → List Char
  | 0, _ => []
  | _ + 1, 0 => []
  | fuel + 1, n + 1 => natReprAux fuel ((n + 1) / 10) ++ [Nat.digitChar ((n + 1) % 10)]

/-- Decimal rendering of a natural number, as Python str(n). -/
def natRepr (n : Nat) : List Char :=
  if n = 0 then ['0'] else natReprAux n n

/-- Decimal rendering of an integer, as Python str(i). -/
def intRepr (i : Int) : List Char :=
  if i < 0 then '-' :: natRepr i.natAbs else natRepr i.toNat

/-! ## Duration formatting and parsing (main.py) -/

/-- main.py _format_minutes.  Python's floor division and modulo on the
positive divisor 60 are Int.ediv and Int.emod. -/
def format_minutes (minutes : Int) : String :=
  if Int.ediv minutes 60 ≠ 0 then
    String.mk (intRepr (Int.ediv minutes 60) ++ 'h' :: ' '
      :: (intRepr (Int.emod minutes 60) ++ ['m']))
  else
    String.mk (intRepr (Int.emod minutes 60) ++ ['m'])

/-- Remove every occurrence of a character: Python text.replace(c, ""). -/
def removeChar (c : Char) : List Char → List Char
  | [] => []
  | x :: xs => if x = c then removeChar c xs else x :: removeChar c xs

/-- Split on runs of whitespace discarding empties, like Python str.split()
with no argument; acc holds the current word reversed. -/
def splitWsAux : List Char → List Char → List (List Char)
  | [], acc => if acc = [] then [] else [acc.reverse]
  | c :: cs, acc =>
    if c.isWhitespace then
      if acc = [] then splitWsAux cs [] else acc.reverse :: splitWsAux cs []
    else splitWsAux cs (c :: acc)

/-- Python text.split() with no argument. -/
def splitWs (l : List Char) : List (List Char) := splitWsAux l []

/-- Python int() on the strings that reach it here: an optional sign and a
nonempty digit run.  (Python int additionally ignores surrounding
whitespace and allows underscore separators; no string written into the
read-only Duration column has either.)  none models ValueError. -/
def intVal? (l : List Char) : Option Int :=
  match l with
  | [] => none
  | c :: rest =>
    if c = '-' then (digitsVal? rest).map (fun n => -(n : Int))
    else if c = '+' then (digitsVal? rest).map (fun n => (n : Int))
    else (digitsVal? (c :: rest)).map (fun n => (n : Int))

/-- main.py _parse_duration_text: the placeholder and the empty string count
as 0; otherwise drop every h and m, split on whitespace, and read
"H M" as hours and minutes or a single part as minutes.  none models the
uncaught IndexError (no parts) or ValueError (a part not a number). -/
def parse_duration_text (text : String) : Option Int :=
  if text = "—" ∨ text = "" then some 0
  else
    match splitWs (removeChar 'm' (removeChar 'h' text.data)) with
    | [] => none
    | [hs, ms] => do
      let h ← intVal? hs
      let m ← intVal? ms
      pure (h * 60 + m)
    | ms :: _ => intVal? ms

/-- The text of the total label for a given total of minutes
(main.py update_total_label's f-string). -/
def totalLabelText (total : Int) : String :=
  "Total: " ++ String.mk (intRepr (Int.ediv total 60)) ++ "h "
    ++ String.mk (intRepr (Int.emod total 60)) ++ "m"

/-- main.py update_total_label over the Duration-column texts: sum every
row's parsed duration, render the label.  none models the uncaught
exception should a cell text fail to parse. -/
def update_total_label (durationTexts : List String) : Option String :=
  (durationTexts.foldlM (fun acc t => (parse_duration_text t).map (fun v => acc + v))
    (0 : Int)).map totalLabelText

/-- main.py _update_duration_for_row: the text written to the read-only
Duration cell for the two time texts of a row. -/
def durationDisplay (startText endText : String) : String :=
  match minutes_between (pyStrip startText) (pyStrip endText) with
  | some m => format_minutes m
  | none => "—"

/-- The Duration-cell text of a row whose computed duration is d, the
placeholder when the row's times do not parse. -/
def displayOfDuration : Option Nat → String
  | none => "—"
  | some d => format_minutes (d : Int)

/-! ## Persistence layer (db.py)

The table is a list of rows in rowid order; sqlite assigns increasing
rowids, so executemany appends in list order.  ORDER BY on a TEXT column
compares with memcmp over the UTF-8 bytes: on these ASCII time strings
that is exactly lexicographic order of the character codes, modelled by
charListLe below; the sort itself is modelled as an insertion sort.
-/

/-- Lexicographic order on character codes (sqlite memcmp on ASCII text). -/
def charListLe : List Char → List Char → Bool
  | [], _ => true
  | _ :: _, [] => false
  | a :: as, b :: bs =>
    if a.toNat < b.toNat then true
    else if b.toNat < a.toNat then false
    else charListLe as bs

/-- The ORDER BY start_time ASC comparison between two rows. -/
def entryLE (a b : StudyEntry) : Prop :=
  charListLe a.start_time.data b.start_time.data = true

instance : DecidableRel entryLE :=
  fun _ _ => inferInstanceAs (Decidable (_ = true))

/-- db.py insert_entries: no connection is opened for an empty list,
otherwise the rows are appended in order. -/
def insert_entries (entries : List StudyEntry) (db : List StudyEntry) : List StudyEntry :=
  if entries = [] then db else db ++ entries

/-- db.py delete_entries_for_date: DELETE FROM study_logs WHERE study_date = ?. -/
def delete_entries_for_date (date_iso : String) (db : List StudyEntry) : List StudyEntry :=
  db.filter (fun e => ¬ (e.date_iso = date_iso))

/-- db.py fetch_entries: SELECT ... WHERE study_date = ? ORDER BY start_time ASC. -/
def fetch_entries (date_iso : String) (db : List StudyEntry) : List StudyEntry :=
  List.insertionSort entryLE (db.filter (fun e => e.date_iso = date_iso))

/-- Start-time comparison by clock value (chronological order), through the
application's own time parser. -/
def chronoLE (a b : StudyEntry) : Bool :=
  match parseTimeMinutes a.start_time, parseTimeMinutes b.start_time with
  | some av, some bv => decide (av ≤ bv)
  | _, _ => false

/-! ## Session form (main.py StudyLoggerWindow) -/

/-- One editable table row: the texts of the From, To, Category and Notes
cells (the Duration cell is read-only and derived). -/
structure FormRow where
  startText : String
  endText : String
  categoryText : String
  notesText : String
deriving DecidableEq

/-- The validation message for a failing 1-based row number. -/
def rowErrorMsg (n : Nat) : String :=
  "Row " ++ String.mk (natRepr n) ++ ": invalid time format (use HH:MM)."

/-- main.py collect_entries, from row index idx on: strip both time texts,
default an empty category to Other, and either append the entry or the
row's validation message. -/
def collect_aux (date_iso : String) : Nat → List FormRow → List StudyEntry × List String
  | _, [] => ([], [])
  | idx, r :: rest =>
    let startT := pyStrip r.startText
    let endT := pyStrip r.endText
    let category := if r.categoryText = "" then "Other" else r.categoryText
    let tail := collect_aux date_iso (idx + 1) rest
    match minutes_between startT endT with
    | none => (tail.1, rowErrorMsg (idx + 1) :: tail.2)
    | some d => (⟨date_iso, startT, endT, category, d⟩ :: tail.1, tail.2)

/-- main.py collect_entries: the entries and the validation messages of the
whole form, rows numbered from 1. -/
def collect_entries (date_iso : String) (rows : List FormRow) :
    List StudyEntry × List String :=
  collect_aux date_iso 0 rows

/-- The user-visible outcome of the Save Day button. -/
inductive SaveOutcome where
  | validationErrors (msgs : List String)
  | nothingToSave
  | saved
deriving DecidableEq

/-- main.py save_entries: abort with the messages if any row failed, notice
if there is nothing to save, otherwise delete the day and insert the
collected entries; returns the table contents after the click. -/
def save_entries (date_iso : String) (rows : List FormRow) (db : List StudyEntry) :
    List StudyEntry × SaveOutcome :=
  let (entries, errors) := collect_entries date_iso rows
  if errors ≠ [] then (db, SaveOutcome.validationErrors errors)
  else if entries = [] then (db, SaveOutcome.nothingToSave)
  else (insert_entries entries (delete_entries_for_date date_iso db), SaveOutcome.saved)

/-- The sequence of durable database states during a successful save:
save_entries calls delete_entries_for_date and then insert_entries, and
each opens its own connection in a with-block that commits on exit, so the
state after the delete alone is committed before the insert begins. -/
def save_durable_states (date_iso : String) (entries : List StudyEntry)
    (db : List StudyEntry) : List (List StudyEntry) :=
  [db, delete_entries_for_date date_iso db,
    insert_entries entries (delete_entries_for_date date_iso db)]

/-- The specification's literal HH:MM form, stated from the spec's words for
comparison with the code's parser: exactly two digits, a colon, and two
digits, with hour at most 23 and minute at most 59. -/
def matchesHHMM (s : String) : Bool :=
  match s.data with
  | [h1, h2, c, m1, m2] =>
    h1.isDigit && h2.isDigit && (c == ':') && m1.isDigit && m2.isDigit
      && decide ((h1.toNat - 48) * 10 + (h2.toNat - 48) < 24)
      && decide ((m1.toNat - 48) * 10 + (m2.toNat - 48) < 60)
  | _ => false

/-! ## Lemmas: decimal rendering -/

theorem digitChar_isDigit (m : Nat) (h : m < 10) : (Nat.digitChar m).isDigit = true := by
  interval_cases m <;> decide

theorem digitChar_toNat (m : Nat) (h : m < 10) : (Nat.digitChar m).toNat - 48 = m := by
  interval_cases m <;> decide

theorem natReprAux_digits : ∀ fuel n c, c ∈ natReprAux fuel n → c.isDigit = true
  | 0, _, c => by simp [natReprAux]
  | _ + 1, 0, c => by simp [natReprAux]
  | fuel + 1, n + 1, c => by
    intro hc
    simp only [natReprAux, List.mem_append, List.mem_singleton] at hc
    rcases hc with hc | hc
    · exact natReprAux_digits fuel ((n + 1) / 10) c hc
    · subst hc
      exact digitChar_isDigit _ (Nat.mod_lt _ (by omega))

theorem natReprAux_zero (fuel : Nat) : natReprAux fuel 0 = [] := by
  cases fuel <;> rfl

theorem natReprAux_val : ∀ fuel n, n ≤ fuel → 0 < n →
    List.foldl (fun acc c => acc * 10 + (c.toNat - 48)) 0 (natReprAux fuel n) = n
  | 0, n => by omega
  | fuel + 1, 0 => by omega
  | fuel + 1, n + 1 => by
    intro hle _
    simp only [natReprAux, List.foldl_append, List.foldl_cons, List.foldl_nil]
    by_cases h10 : (n + 1) / 10 = 0
    · rw [h10, natReprAux_zero]
      simp only [List.foldl_nil]
      rw [digitChar_toNat _ (Nat.mod_lt _ (by omega))]
      omega
    · have hfu : (n + 1) / 10 ≤ fuel := by
        have := Nat.div_lt_self (by omega : 0 < n + 1) (by omega : 1 < 10)
        omega
      rw [natReprAux_val fuel ((n + 1) / 10) hfu (Nat.pos_of_ne_zero h10)]
      rw [digitChar_toNat _ (Nat.mod_lt _ (by omega))]
      omega

theorem natRepr_digits (n : Nat) : ∀ c ∈ natRepr n, c.isDigit = true := by
  unfold natRepr
  split
  · intro c hc
    simp only [List.mem_singleton] at hc
    subst hc
    decide
  · exact fun c hc => natReprAux_digits n n c hc

theorem natRepr_ne_nil (n : Nat) : natRepr n ≠ [] := by
  unfold natRepr
  split
  · simp
  · rename_i h
    cases n with
    | zero => exact absurd rfl h
    | succ m => simp [natReprAux]

theorem digitsVal?_natRepr (n : Nat) : digitsVal? (natRepr n) = some n := by
  unfold digitsVal?
  rw [if_pos]
  · congr 1
    unfold natRepr
    split
    · rename_i h
      subst h
      decide
    · rename_i h
      exact natReprAux_val n n le_rfl (Nat.pos_of_ne_zero h)
  · refine ⟨natRepr_ne_nil n, ?_⟩
    rw [List.all_eq_true]
    exact fun c hc => natRepr_digits n c hc

theorem isDigit_facts (c : Char) (h : c.isDigit = true) :
    c ≠ 'h' ∧ c ≠ 'm' ∧ c ≠ '-' ∧ c ≠ '+' ∧ c ≠ ':' ∧ c.isWhitespace = false := by
  refine ⟨?_, ?_, ?_, ?_, ?_, ?_⟩
  · intro he; rw [he] at h; exact absurd h (by decide)
  · intro he; rw [he] at h; exact absurd h (by decide)
  · intro he; rw [he] at h; exact absurd h (by decide)
  · intro he; rw [he] at h; exact absurd h (by decide)
  · intro he; rw [he] at h; exact absurd h (by decide)
  · cases hw : c.isWhitespace
    · rfl
    · simp only [Char.isWhitespace, Bool.or_eq_true, decide_eq_true_eq] at hw
      rcases hw with ((he | he) | he) | he <;> (rw [he] at h; exact absurd h (by decide))

theorem intVal?_natRepr (n : Nat) : intVal? (natRepr n) = some (n : Int) := by
  obtain ⟨c, cs, hl⟩ : ∃ c cs, natRepr n = c :: cs := by
    cases h : natRepr n with
    | nil => exact absurd h (natRepr_ne_nil n)
    | cons c cs => exact ⟨c, cs, rfl⟩
  have hdig : c.isDigit = true := natRepr_digits n c (by rw [hl]; exact List.mem_cons_self c cs)
  have hfacts := isDigit_facts c hdig
  rw [hl]
  simp only [intVal?, if_neg hfacts.2.2.1, if_neg hfacts.2.2.2.1]
  rw [← hl, digitsVal?_natRepr]
  rfl

theorem intRepr_natCast (n : Nat) : intRepr (n : Int) = natRepr n := by
  unfold intRepr
  rw [if_neg (not_lt.mpr (Int.natCast_nonneg n))]
  simp

theorem ediv_sixty (m : Nat) : Int.ediv (m : Int) 60 = ((m / 60 : Nat) : Int) := by
  rw [show (60 : Int) = ((60 : Nat) : Int) from rfl]
  simp [Int.ediv]

theorem emod_sixty (m : Nat) : Int.emod (m : Int) 60 = ((m % 60 : Nat) : Int) := by
  rw [show (60 : Int) = ((60 : Nat) : Int) from rfl]
  simp [Int.emod]

theorem format_minutes_natCast (n : Nat) :
    format_minutes (n : Int) =
      if n / 60 ≠ 0 then
        String.mk (natRepr (n / 60) ++ 'h' :: ' ' :: (natRepr (n % 60) ++ ['m']))
      else String.mk (natRepr (n % 60) ++ ['m']) := by
  unfold format_minutes
  simp only [ediv_sixty, emod_sixty, intRepr_natCast]
  by_cases h : n / 60 = 0
  · rw [if_neg (not_not_intro (Int.natCast_eq_zero.mpr h)), if_neg (not_not_intro h)]
  · rw [if_pos (Int.natCast_ne_zero.mpr h), if_pos h]

/-! ## Lemmas: character-list surgery used by the duration parser -/

theorem removeChar_cons_self (c : Char) (xs : List Char) :
    removeChar c (c :: xs) = removeChar c xs := by
  simp [removeChar]

theorem removeChar_cons_ne (c x : Char) (h : ¬ x = c) (xs : List Char) :
    removeChar c (x :: xs) = x :: removeChar c xs := by
  simp [removeChar, h]

theorem removeChar_append (c : Char) (a b : List Char) :
    removeChar c (a ++ b) = removeChar c a ++ removeChar c b := by
  induction a with
  | nil => rfl
  | cons x xs ih =>
    by_cases hxc : x = c
    · subst hxc
      rw [List.cons_append, removeChar_cons_self, removeChar_cons_self, ih]
    · rw [List.cons_append, removeChar_cons_ne c x hxc, removeChar_cons_ne c x hxc, ih,
        List.cons_append]

theorem removeChar_eq_self (c : Char) :
    ∀ l, (∀ x ∈ l, x ≠ c) → removeChar c l = l
  | [] => fun _ => rfl
  | x :: xs => fun h => by
    rw [removeChar_cons_ne c x (h x (List.mem_cons_self x xs))]
    rw [removeChar_eq_self c xs (fun y hy => h y (List.mem_cons_of_mem x hy))]

theorem splitWsAux_append_nonws (a : List Char) (ha : ∀ c ∈ a, c.isWhitespace = false) :
    ∀ cs acc, splitWsAux (a ++ cs) acc = splitWsAux cs (a.reverse ++ acc) := by
  induction a with
  | nil => intro cs acc; simp
  | cons x xs ih =>
    intro cs acc
    have hx : x.isWhitespace = false := ha x (List.mem_cons_self x xs)
    simp only [List.cons_append, splitWsAux, hx, Bool.false_eq_true, if_false, List.append_eq]
    rw [ih (fun c hc => ha c (List.mem_cons_of_mem x hc)) cs (x :: acc)]
    simp [List.append_assoc]

theorem splitWs_single (d : List Char) (hne : d ≠ [])
    (hnw : ∀ c ∈ d, c.isWhitespace = false) : splitWs d = [d] := by
  have h := splitWsAux_append_nonws d hnw [] []
  rw [List.append_nil, List.append_nil] at h
  unfold splitWs
  rw [h]
  simp [splitWsAux, hne]

theorem splitWs_pair (d1 d2 : List Char) (h1 : d1 ≠ []) (h2 : d2 ≠ [])
    (hw1 : ∀ c ∈ d1, c.isWhitespace = false) (hw2 : ∀ c ∈ d2, c.isWhitespace = false) :
    splitWs (d1 ++ ' ' :: d2) = [d1, d2] := by
  unfold splitWs
  rw [splitWsAux_append_nonws d1 hw1 (' ' :: d2) [], List.append_nil]
  simp only [splitWsAux]
  rw [if_pos (by decide)]
  rw [if_neg (by simpa using h1)]
  rw [List.reverse_reverse]
  have hs : splitWsAux d2 [] = [d2] := splitWs_single d2 h2 hw2
  rw [hs]

theorem mk_ne_of_length (l : List Char) (s : String) (h : l.length ≠ s.data.length) :
    String.mk l ≠ s := by
  intro he
  apply h
  rw [← he]

/-! ## Lemma: the duration format and parse round trip -/

theorem parse_format_roundtrip (n : Nat) :
    parse_duration_text (format_minutes (n : Int)) = some (n : Int) := by
  have hlen : ∀ k : Nat, (natRepr k).length ≠ 0 := fun k hk =>
    natRepr_ne_nil k (List.length_eq_zero.mp hk)
  have hnd : ∀ (k : Nat) (x : Char), x ∈ natRepr k → x ≠ 'h' :=
    fun k x hx => (isDigit_facts x (natRepr_digits k x hx)).1
  have hnm : ∀ (k : Nat) (x : Char), x ∈ natRepr k → x ≠ 'm' :=
    fun k x hx => (isDigit_facts x (natRepr_digits k x hx)).2.1
  have hnw : ∀ (k : Nat) (x : Char), x ∈ natRepr k → x.isWhitespace = false :=
    fun k x hx => (isDigit_facts x (natRepr_digits k x hx)).2.2.2.2.2
  have hdash : ("—" : String).data.length = 1 := by decide
  have hempty : ("" : String).data.length = 0 := by decide
  rw [format_minutes_natCast]
  by_cases h60 : n / 60 = 0
  · rw [if_neg (not_not_intro h60)]
    unfold parse_duration_text
    rw [if_neg]
    · have hdata : (String.mk (natRepr (n % 60) ++ ['m'])).data = natRepr (n % 60) ++ ['m'] := rfl
      rw [hdata]
      rw [removeChar_eq_self 'h' _ (by
        intro x hx
        rcases List.mem_append.mp hx with hx | hx
        · exact hnd _ x hx
        · simp only [List.mem_singleton] at hx; subst hx; decide)]
      rw [removeChar_append, removeChar_eq_self 'm' _ (hnm _)]
      have hm1 : removeChar 'm' ['m'] = [] := by simp [removeChar]
      rw [hm1, List.append_nil]
      rw [splitWs_single _ (natRepr_ne_nil _) (hnw _)]
      have hmod : n % 60 = n := by omega
      rw [hmod]
      exact intVal?_natRepr n
    · have hq := hlen (n % 60)
      rintro (he | he)
      · exact mk_ne_of_length _ _ (by
          simp only [List.length_append, List.length_singleton, hdash]
          omega) he
      · exact mk_ne_of_length _ _ (by
          simp only [List.length_append, List.length_singleton, hempty]
          omega) he
  · rw [if_pos h60]
    unfold parse_duration_text
    rw [if_neg]
    · have hdata : (String.mk (natRepr (n / 60) ++ 'h' :: ' ' :: (natRepr (n % 60) ++ ['m']))).data
          = natRepr (n / 60) ++ 'h' :: ' ' :: (natRepr (n % 60) ++ ['m']) := rfl
      rw [hdata]
      rw [removeChar_append]
      rw [removeChar_eq_self 'h' _ (hnd _)]
      have hh : removeChar 'h' ('h' :: ' ' :: (natRepr (n % 60) ++ ['m']))
          = ' ' :: (natRepr (n % 60) ++ ['m']) := by
        rw [removeChar_cons_self]
        rw [removeChar_cons_ne 'h' ' ' (by decide)]
        rw [removeChar_eq_self 'h' _ (by
          intro x hx
          rcases List.mem_append.mp hx with hx | hx
          · exact hnd _ x hx
          · simp only [List.mem_singleton] at hx; subst hx; decide)]
      rw [hh]
      rw [removeChar_append]
      rw [removeChar_eq_self 'm' _ (hnm _)]
      have hm : removeChar 'm' (' ' :: (natRepr (n % 60) ++ ['m']))
          = ' ' :: natRepr (n % 60) := by
        rw [removeChar_cons_ne 'm' ' ' (by decide)]
        rw [removeChar_append, removeChar_eq_self 'm' _ (hnm _)]
        have hm1 : removeChar 'm' ['m'] = [] := by simp [removeChar]
        rw [hm1, List.append_nil]
      rw [hm]
      rw [splitWs_pair _ _ (natRepr_ne_nil _) (natRepr_ne_nil _) (hnw _) (hnw _)]
      simp only [intVal?_natRepr, Option.bind_eq_bind, Option.some_bind, Option.pure_def,
        Option.some.injEq]
      push_cast
      omega
    · have hq := hlen (n / 60)
      rintro (he | he)
      · exact mk_ne_of_length _ _ (by
          simp only [List.length_append, List.length_cons, List.length_singleton, hdash]
          omega) he
      · exact mk_ne_of_length _ _ (by
          simp only [List.length_append, List.length_cons, List.length_singleton, hempty]
          omega) he

/-! ## Lemmas: the ORDER BY comparison is total and transitive -/

theorem charListLe_total : ∀ x y, charListLe x y = true ∨ charListLe y x = true
  | [], _ => Or.inl rfl
  | _ :: _, [] => Or.inr rfl
  | a :: as, b :: bs => by
    rcases Nat.lt_trichotomy a.toNat b.toNat with h | h | h
    · exact Or.inl (by simp [charListLe, h])
    · rcases charListLe_total as bs with ht | ht
      · exact Or.inl (by simp [charListLe, h, ht])
      · exact Or.inr (by simp [charListLe, h, ht])
    · exact Or.inr (by simp [charListLe, h])

theorem charListLe_trans : ∀ x y z, charListLe x y = true → charListLe y z = true →
    charListLe x z = true
  | [], _, _ => by intro _ _; rfl
  | _ :: _, [], _ => by intro h _; simp [charListLe] at h
  | _ :: _, _ :: _, [] => by intro _ h; simp [charListLe] at h
  | a :: as, b :: bs, c :: cs => by
    intro h1 h2
    simp only [charListLe] at h1 h2 ⊢
    split at h1
    · rename_i hab
      split at h2
      · rename_i hbc
        simp [Nat.lt_trans hab hbc]
      · split at h2
        · simp at h2
        · rename_i hcb hbc
          have hac : a.toNat < c.toNat := by omega
          simp [hac]
    · split at h1
      · simp at h1
      · rename_i hba hab
        split at h2
        · rename_i hbc
          have hac : a.toNat < c.toNat := by omega
          simp [hac]
        · split at h2
          · simp at h2
          · rename_i hcb hbc
            have hnac : ¬ a.toNat < c.toNat := by omega
            have hnca : ¬ c.toNat < a.toNat := by omega
            simp [hnac, hnca, charListLe_trans as bs cs h1 h2]

/-! ## Lemmas: the persistence layer -/

theorem filter_date_delete (d : String) (db : List StudyEntry) :
    (delete_entries_for_date d db).filter (fun e => e.date_iso = d) = [] := by
  unfold delete_entries_for_date
  rw [List.filter_eq_nil_iff]
  intro a ha
  rw [List.mem_filter] at ha
  simp only [decide_eq_true_eq] at ha ⊢
  exact ha.2

/-- C6: replacing a day with the empty list still clears the day (the delete
runs, the insert is the identity because insert_entries opens no connection
for an empty list), and a subsequent fetch returns the empty sequence. -/
theorem replace_day_empty_clears (d : String) (db : List StudyEntry) :
    insert_entries [] (delete_entries_for_date d db) = delete_entries_for_date d db ∧
    fetch_entries d (delete_entries_for_date d db) = [] := by
  constructor
  · simp [insert_entries]
  · unfold fetch_entries
    rw [filter_date_delete]
    rfl

/-- C2 (amended): after replacing day d with entries all dated d, fetching d
returns exactly those entries (a permutation of them), ordered by
start_time ascending in lexicographic string order (the order sqlite's
ORDER BY gives a TEXT column), whatever the insertion order was. -/
theorem replace_day_fetch_perm_sorted (db : List StudyEntry) (d : String)
    (entries : List StudyEntry) (h : ∀ e ∈ entries, e.date_iso = d) :
    List.Perm (fetch_entries d (insert_entries entries (delete_entries_for_date d db)))
      entries ∧
    List.Sorted entryLE
      (fetch_entries d (insert_entries entries (delete_entries_for_date d db))) := by
  haveI : IsTotal StudyEntry entryLE :=
    ⟨fun a b => charListLe_total a.start_time.data b.start_time.data⟩
  haveI : IsTrans StudyEntry entryLE :=
    ⟨fun a b c => charListLe_trans a.start_time.data b.start_time.data c.start_time.data⟩
  have hfil : (insert_entries entries (delete_entries_for_date d db)).filter
      (fun e => e.date_iso = d) = entries := by
    unfold insert_entries
    by_cases he : entries = []
    · rw [if_pos he, he]
      exact filter_date_delete d db
    · rw [if_neg he, List.filter_append, filter_date_delete d db, List.nil_append]
      apply List.filter_eq_self.mpr
      intro a ha
      simp only [decide_eq_true_eq]
      exact h a ha
  unfold fetch_entries
  rw [hfil]
  exact ⟨List.perm_insertionSort entryLE entries, List.sorted_insertionSort entryLE entries⟩

/-- Witness for C2's amended theorem: replacing 2024-01-01 (which held one
old row, next to a row of another day) with two new rows given in
reverse start order, the fetch returns exactly the two new rows sorted by
start_time. -/
theorem replace_day_fetch_perm_sorted_witness :
    List.Perm
      (fetch_entries "2024-01-01"
        (insert_entries
          [⟨"2024-01-01", "10:00", "11:00", "GenAI", 60⟩,
            ⟨"2024-01-01", "09:00", "09:45", "Operating Systems", 45⟩]
          (delete_entries_for_date "2024-01-01"
            [⟨"2024-01-01", "07:00", "08:00", "GenAI", 60⟩,
              ⟨"2024-01-02", "07:00", "08:00", "GenAI", 60⟩])))
      [⟨"2024-01-01", "10:00", "11:00", "GenAI", 60⟩,
        ⟨"2024-01-01", "09:00", "09:45", "Operating Systems", 45⟩] ∧
    List.Sorted entryLE
      (fetch_entries "2024-01-01"
        (insert_entries
          [⟨"2024-01-01", "10:00", "11:00", "GenAI", 60⟩,
            ⟨"2024-01-01", "09:00", "09:45", "Operating Systems", 45⟩]
          (delete_entries_for_date "2024-01-01"
            [⟨"2024-01-01", "07:00", "08:00", "GenAI", 60⟩,
              ⟨"2024-01-02", "07:00", "08:00", "GenAI", 60⟩]))) :=
  replace_day_fetch_perm_sorted
    [⟨"2024-01-01", "07:00", "08:00", "GenAI", 60⟩,
      ⟨"2024-01-02", "07:00", "08:00", "GenAI", 60⟩]
    "2024-01-01"
    [⟨"2024-01-01", "10:00", "11:00", "GenAI", 60⟩,
      ⟨"2024-01-01", "09:00", "09:45", "Operating Systems", 45⟩]
    (by decide)

/-- C2 (counterexample to the claim as stated): with the two valid start
times 9:30 and 10:00 (both accepted by the app's parser, 9:30 denoting
570 minutes and 10:00 denoting 600), the fetch after the day replace
returns the 10:00 row before the 9:30 row, because sqlite compares the
TEXT column byte-wise; so the result is not in chronologically ascending
start order. -/
theorem fetch_chronological_cex :
    fetch_entries "2024-01-01"
      (insert_entries
        [⟨"2024-01-01", "9:30", "10:15", "GenAI", 45⟩,
          ⟨"2024-01-01", "10:00", "11:00", "GenAI", 60⟩]
        (delete_entries_for_date "2024-01-01" [])) =
      [⟨"2024-01-01", "10:00", "11:00", "GenAI", 60⟩,
        ⟨"2024-01-01", "9:30", "10:15", "GenAI", 45⟩] ∧
    parseTimeMinutes "9:30" = some 570 ∧ parseTimeMinutes "10:00" = some 600 ∧
    chronoLE ⟨"2024-01-01", "10:00", "11:00", "GenAI", 60⟩
      ⟨"2024-01-01", "9:30", "10:15", "GenAI", 45⟩ = false := by
  decide

/-- C1 (evidence of the code bug): saving one new entry for a day that held
one old entry passes through three durable states, and the middle one,
committed by the delete's own connection before the insert's connection
opens, holds no entry at all for the day: the deleted-but-not-reinserted
state is visible and durable, contrary to the single-transaction claim. -/
theorem save_commits_intermediate_state :
    save_durable_states "2024-01-01" [⟨"2024-01-01", "09:00", "10:30", "GenAI", 90⟩]
        [⟨"2024-01-01", "07:30", "08:15", "Operating Systems", 45⟩] =
      [[⟨"2024-01-01", "07:30", "08:15", "Operating Systems", 45⟩], [],
        [⟨"2024-01-01", "09:00", "10:30", "GenAI", 90⟩]] ∧
    fetch_entries "2024-01-01" [] = [] := by
  decide

/-! ## Lemmas: collecting the form rows -/

theorem collect_aux_errors (d : String) : ∀ (rows : List FormRow) (i : Nat),
    (collect_aux d i rows).2 =
      ((rows.enumFrom i).filter
        (fun p => (minutes_between (pyStrip p.2.startText) (pyStrip p.2.endText)).isNone)).map
        (fun p => rowErrorMsg (p.1 + 1))
  | [], i => by simp [collect_aux, List.enumFrom]
  | r :: rest, i => by
    have ih := collect_aux_errors d rest (i + 1)
    simp only [collect_aux]
    cases hmb : minutes_between (pyStrip r.startText) (pyStrip r.endText) with
    | none => simp [List.enumFrom, hmb, ih]
    | some v => simp [List.enumFrom, hmb, ih]

theorem collect_aux_errors_ne (d : String) : ∀ (rows : List FormRow) (i : Nat),
    (∃ r ∈ rows, minutes_between (pyStrip r.startText) (pyStrip r.endText) = none) →
    (collect_aux d i rows).2 ≠ []
  | [], _ => by simp
  | r :: rest, i => by
    rintro ⟨r0, hr0, hfail⟩
    simp only [collect_aux]
    rcases List.mem_cons.mp hr0 with he | hm
    · subst he
      simp [hfail]
    · cases hmb : minutes_between (pyStrip r.startText) (pyStrip r.endText) with
      | none => simp
      | some v =>
        simp only []
        exact collect_aux_errors_ne d rest (i + 1) ⟨r0, hm, hfail⟩

/-- C3: if any row's time fields fail to parse, the save makes no
persistence call (the stored entries are returned unchanged) and reports
exactly the list of offending rows, each by its 1-based row number; in
particular no subset of the valid rows is saved. -/
theorem save_aborted_on_invalid_row (d : String) (rows : List FormRow)
    (db : List StudyEntry)
    (h : ∃ r ∈ rows, minutes_between (pyStrip r.startText) (pyStrip r.endText) = none) :
    save_entries d rows db =
      (db, SaveOutcome.validationErrors
        ((rows.enum.filter
          (fun p => (minutes_between (pyStrip p.2.startText) (pyStrip p.2.endText)).isNone)).map
          (fun p => rowErrorMsg (p.1 + 1)))) := by
  have hne : (collect_aux d 0 rows).2 ≠ [] := collect_aux_errors_ne d rows 0 h
  have herr := collect_aux_errors d rows 0
  have henum : rows.enum = rows.enumFrom 0 := rfl
  unfold save_entries collect_entries
  rcases hc : collect_aux d 0 rows with ⟨es, errs⟩
  rw [hc] at hne herr
  simp only at hne herr
  simp only [hc]
  rw [if_pos hne, henum, ← herr]

/-- Witness for C3's theorem: a form whose single row has start bad and end
10:00 leaves a one-entry store unchanged and reports row 1. -/
theorem save_aborted_on_invalid_row_witness :
    save_entries "2024-01-01" [⟨"bad", "10:00", "GenAI", ""⟩]
        [⟨"2024-01-01", "07:30", "08:15", "Operating Systems", 45⟩] =
      ([⟨"2024-01-01", "07:30", "08:15", "Operating Systems", 45⟩],
        SaveOutcome.validationErrors ["Row 1: invalid time format (use HH:MM)."]) := by
  have h := save_aborted_on_invalid_row "2024-01-01" [⟨"bad", "10:00", "GenAI", ""⟩]
    [⟨"2024-01-01", "07:30", "08:15", "Operating Systems", 45⟩]
    ⟨⟨"bad", "10:00", "GenAI", ""⟩, by simp, by decide⟩
  rw [h]
  decide

/-- C9: a form with the single row 09:00 to 10:30 saves one entry with
duration 90 minutes, and the row's Duration cell shows 1h 30m. -/
theorem save_single_row_90_minutes :
    save_entries "2024-01-01" [⟨"09:00", "10:30", "GenAI", ""⟩] [] =
      ([⟨"2024-01-01", "09:00", "10:30", "GenAI", 90⟩], SaveOutcome.saved) ∧
    durationDisplay "09:00" "10:30" = "1h 30m" := by
  decide

/-! ## Lemmas and claims: running total, durations, display -/

theorem total_fold (rows : List (Option Nat)) : ∀ acc : Int,
    List.foldlM (fun acc t => (parse_duration_text t).map (fun v => acc + v)) acc
      (rows.map displayOfDuration) =
      some (acc + (((rows.map (fun r => r.getD 0)).sum : Nat) : Int)) := by
  induction rows with
  | nil => intro acc; simp
  | cons r rest ih =>
    intro acc
    simp only [List.map_cons, List.foldlM_cons]
    cases r with
    | none =>
      have hp : parse_duration_text (displayOfDuration none) = some 0 := by decide
      rw [hp]
      simp only [Option.map_some', Option.bind_eq_bind, Option.some_bind]
      rw [ih (acc + 0)]
      congr 1
      simp only [Option.getD_none, List.sum_cons]
      push_cast
      omega
    | some dv =>
      have hp : parse_duration_text (displayOfDuration (some dv)) = some (dv : Int) :=
        parse_format_roundtrip dv
      rw [hp]
      simp only [Option.map_some', Option.bind_eq_bind, Option.some_bind]
      rw [ih (acc + (dv : Int))]
      congr 1
      simp only [Option.getD_some, List.sum_cons]
      push_cast
      omega

/-- C7: for every form state (each row showing either the placeholder or a
formatted duration), the running total is the sum of the valid rows'
durations with placeholder rows contributing 0; and rows of 90 and 45
minutes total 2h 15m. -/
theorem running_total_is_sum (rows : List (Option Nat)) :
    update_total_label (rows.map displayOfDuration) =
      some (totalLabelText (((rows.map (fun r => r.getD 0)).sum : Nat) : Int)) ∧
    update_total_label [displayOfDuration (some 90), displayOfDuration (some 45)] =
      some "Total: 2h 15m" := by
  constructor
  · unfold update_total_label
    rw [total_fold rows 0]
    simp
  · decide

/-- C10: formatting any number of minutes and parsing the text back returns
the same number, the round trip that makes the re-parsed running total
equal the sum of the computed durations. -/
theorem format_parse_roundtrip (m : Nat) :
    parse_duration_text (format_minutes (m : Int)) = some (m : Int) :=
  parse_format_roundtrip m

/-- C4: for valid times with the end not before the start, the computed
duration is end minus start in whole minutes. -/
theorem duration_no_wrap (s e : String) (sv ev : Nat)
    (hs : parseTimeMinutes s = some sv) (he : parseTimeMinutes e = some ev)
    (hle : sv ≤ ev) :
    minutes_between s e = some ((ev : Int) - (sv : Int)) := by
  simp only [minutes_between, hs, he]
  rw [if_neg (by omega : ¬ ev < sv)]

/-- Witness for C4's theorem at 09:00 and 10:30. -/
theorem duration_no_wrap_witness : minutes_between "09:00" "10:30" = some 90 := by
  have h := duration_no_wrap "09:00" "10:30" 540 630 (by decide) (by decide) (by decide)
  rw [h]
  norm_num

/-- C5: for valid times with the end strictly before the start, the computed
duration wraps past midnight: end minus start plus 1440 minutes. -/
theorem duration_wrap (s e : String) (sv ev : Nat)
    (hs : parseTimeMinutes s = some sv) (he : parseTimeMinutes e = some ev)
    (hlt : ev < sv) :
    minutes_between s e = some ((ev : Int) + 1440 - (sv : Int)) := by
  simp only [minutes_between, hs, he]
  rw [if_pos hlt]

/-- Witness for C5's theorem at 23:30 and 00:15, giving 45 minutes. -/
theorem duration_wrap_witness : minutes_between "23:30" "00:15" = some 45 := by
  have h := duration_wrap "23:30" "00:15" 1410 15 (by decide) (by decide) (by decide)
  rw [h]
  norm_num

theorem intRepr_ne_nil (i : Int) : intRepr i ≠ [] := by
  unfold intRepr
  split
  · simp
  · exact natRepr_ne_nil _

theorem format_minutes_ne_dash (m : Int) : format_minutes m ≠ "—" := by
  have hdash : ("—" : String).data.length = 1 := by decide
  unfold format_minutes
  split
  · apply mk_ne_of_length
    rw [hdash]
    simp only [List.length_append, List.length_cons, List.length_singleton]
    have := List.length_pos.mpr (intRepr_ne_nil (Int.ediv m 60))
    omega
  · apply mk_ne_of_length
    rw [hdash]
    simp only [List.length_append, List.length_singleton]
    have := List.length_pos.mpr (intRepr_ne_nil (Int.emod m 60))
    omega

theorem matchesHHMM_parses (t : String) (h : matchesHHMM t = true) :
    ∃ v, parseTimeMinutes t = some v := by
  unfold matchesHHMM at h
  cases ht : t.data with
  | nil => rw [ht] at h; simp at h
  | cons a l1 =>
  cases l1 with
  | nil => rw [ht] at h; simp at h
  | cons b l2 =>
  cases l2 with
  | nil => rw [ht] at h; simp at h
  | cons c l3 =>
  cases l3 with
  | nil => rw [ht] at h; simp at h
  | cons d1 l4 =>
  cases l4 with
  | nil => rw [ht] at h; simp at h
  | cons e1 l5 =>
  cases l5 with
  | cons f l6 => rw [ht] at h; simp at h
  | nil =>
    rw [ht] at h
    simp only [Bool.and_eq_true, beq_iff_eq, decide_eq_true_eq, and_assoc] at h
    obtain ⟨ha, hb, hc, hd, he, h24, h59⟩ := h
    subst hc
    have hane : a ≠ ':' := (isDigit_facts a ha).2.2.2.2.1
    have hbne : b ≠ ':' := (isDigit_facts b hb).2.2.2.2.1
    have hdne : d1 ≠ ':' := (isDigit_facts d1 hd).2.2.2.2.1
    have hene : e1 ≠ ':' := (isDigit_facts e1 he).2.2.2.2.1
    have hsplit : splitOnColon [a, b, ':', d1, e1] = [[a, b], [d1, e1]] := by
      simp [splitOnColon, hane, hbne, hdne, hene]
    have hpf1 : parseField 23 [a, b] = some ((a.toNat - 48) * 10 + (b.toNat - 48)) := by
      have hdv : digitsVal? [a, b] = some ((a.toNat - 48) * 10 + (b.toNat - 48)) := by
        unfold digitsVal?
        rw [if_pos ⟨by simp, by simp [ha, hb]⟩]
        simp only [List.foldl_cons, List.foldl_nil]
        congr 1
        omega
      unfold parseField
      rw [if_pos (Or.inr (by simp)), hdv]
      simp [show (a.toNat - 48) * 10 + (b.toNat - 48) ≤ 23 from by omega]
    have hpf2 : parseField 59 [d1, e1] = some ((d1.toNat - 48) * 10 + (e1.toNat - 48)) := by
      have hdv : digitsVal? [d1, e1] = some ((d1.toNat - 48) * 10 + (e1.toNat - 48)) := by
        unfold digitsVal?
        rw [if_pos ⟨by simp, by simp [hd, he]⟩]
        simp only [List.foldl_cons, List.foldl_nil]
        congr 1
        omega
      unfold parseField
      rw [if_pos (Or.inr (by simp)), hdv]
      simp [show (d1.toNat - 48) * 10 + (e1.toNat - 48) ≤ 59 from by omega]
    refine ⟨((a.toNat - 48) * 10 + (b.toNat - 48)) * 60
      + ((d1.toNat - 48) * 10 + (e1.toNat - 48)), ?_⟩
    unfold parseTimeMinutes
    rw [ht, hsplit]
    simp [hpf1, hpf2]

/-- C8 (amended): the Duration cell shows the placeholder exactly when one of
the two stripped time texts fails the code's time parse (strptime with
the pattern hour colon minute, each field one or two digits in range);
and any pair in the strict two-digit HH:MM form parses, so for such a
pair the computed duration is displayed. -/
theorem duration_display_placeholder_iff (s e : String) :
    (durationDisplay s e = "—" ↔
      (parseTimeMinutes (pyStrip s) = none ∨ parseTimeMinutes (pyStrip e) = none)) ∧
    (matchesHHMM (pyStrip s) = true → matchesHHMM (pyStrip e) = true →
      ∃ v, minutes_between (pyStrip s) (pyStrip e) = some v ∧
        durationDisplay s e = format_minutes v) := by
  constructor
  · cases hs : parseTimeMinutes (pyStrip s) with
    | none =>
      have hmb : minutes_between (pyStrip s) (pyStrip e) = none := by
        simp [minutes_between, hs]
      simp [durationDisplay, hmb, hs]
    | some sv =>
      cases he : parseTimeMinutes (pyStrip e) with
      | none =>
        have hmb : minutes_between (pyStrip s) (pyStrip e) = none := by
          simp [minutes_between, hs, he]
        simp [durationDisplay, hmb, he]
      | some ev =>
        have hmb : minutes_between (pyStrip s) (pyStrip e) =
            some ((if ev < sv then (ev : Int) + 1440 else (ev : Int)) - (sv : Int)) := by
          simp [minutes_between, hs, he]
        simp [durationDisplay, hmb, format_minutes_ne_dash]
  · intro h1 h2
    obtain ⟨v1, hv1⟩ := matchesHHMM_parses _ h1
    obtain ⟨v2, hv2⟩ := matchesHHMM_parses _ h2
    have hmb : minutes_between (pyStrip s) (pyStrip e) =
        some ((if v2 < v1 then (v2 : Int) + 1440 else (v2 : Int)) - (v1 : Int)) := by
      simp [minutes_between, hv1, hv2]
    exact ⟨_, hmb, by simp [durationDisplay, hmb]⟩

/-- Witness for C8's amended theorem at 09:00 and 10:30, a strict HH:MM pair:
the parse succeeds and the Duration cell shows the formatted duration. -/
theorem duration_display_placeholder_iff_witness :
    matchesHHMM (pyStrip "09:00") = true ∧
    (∃ v, minutes_between (pyStrip "09:00") (pyStrip "10:30") = some v ∧
      durationDisplay "09:00" "10:30" = format_minutes v) :=
  ⟨by decide, (duration_display_placeholder_iff "09:00" "10:30").2 (by decide) (by decide)⟩

/-- C8 (counterexample to the claim as stated): 9:30 is not in the two-digit
HH:MM form, yet on the pair 9:30 and 10:00 the duration computation
succeeds and the Duration cell shows 30m, not the placeholder: failure is
not equivalent to an input lying outside the HH:MM form. -/
theorem hhmm_not_required_cex :
    matchesHHMM "9:30" = false ∧ minutes_between "9:30" "10:00" = some 30 ∧
    durationDisplay "9:30" "10:00" = "30m" := by
  decide

end StudyTracker
